import Mathlib

/-!
Verification of the Archipel virtual-machine storage plugin
(archipelagentvirtualmachinestorage/storage.py).

The development shallowly embeds the plugin's six IQ handlers.  External
effects (filesystem, subprocess exit codes, the libvirt definition
document, XMPP presence, notification pushes) are represented explicitly
in a `World` record that every handler transforms, mirroring the Python
statement by statement.  Python exceptions caught by the surrounding
`try`/`except` blocks become early returns carrying the handler's error
code.
-/

namespace Storage

/-! ## Python string primitives -/

/-- Fuel-driven worker for Python's `str.replace(old, new)`:
leftmost, non-overlapping replacement of `pat` by `rep`.
An empty `pat` leaves the string unchanged (the source only ever uses an
empty pattern together with an empty replacement, where CPython's
insert-everywhere behaviour is also the identity). -/
def pyRepF (pat rep : List Char) : Nat → List Char → List Char
  | 0, s => s
  | _ + 1, [] => []
  | fuel + 1, c :: rest =>
    if pat ≠ [] ∧ pat.isPrefixOf (c :: rest) then
      rep ++ pyRepF pat rep fuel (List.drop pat.length (c :: rest))
    else
      c :: pyRepF pat rep fuel rest

/-- Python `s.replace(pat, rep)` on character lists. -/
def pyReplace (pat rep s : List Char) : List Char :=
  pyRepF pat rep s.length s

/-- Python `s.split(sep)` for a one-character separator `sep`
(the source only splits on "." and "/"). -/
def pySplit (sep : Char) : List Char → List (List Char)
  | [] => [[]]
  | c :: rest =>
    match pySplit sep rest with
    | [] => [[]]
    | h :: t => if c = sep then [] :: h :: t else (c :: h) :: t

/-- Python `s.split(sep)[-1]`: the part after the last separator. -/
def lastPartL (sep : Char) (l : List Char) : List Char :=
  (pySplit sep l).getLastD []

/-- `disk_name`/`newname` sanitisation used by `iq_create` and `iq_rename`:
`.replace(" ", "_").replace("/", "_").replace("..", "_")`. -/
def sanitizeName (s : String) : String :=
  (pyReplace ['.', '.'] ['_'] (pyReplace ['/'] ['_'] (pyReplace [' '] ['_'] s.toList))).asString

/-- One decimal digit, for `pyInt?`. -/
def pyDigit? (c : Char) : Option Nat :=
  if '0' ≤ c ∧ c ≤ '9' then some (c.toNat - '0'.toNat) else none

/-- Decimal digit-string value, for `pyInt?`. -/
def pyNat? : List Char → Option Nat
  | [] => none
  | [c] => pyDigit? c
  | c :: rest =>
    match pyDigit? c, pyNat? rest with
    | some d, some n => some (d * 10 ^ rest.length + n)
    | _, _ => none

/-- Python `int(s)` on plain decimal literals (optionally signed);
`none` models the `ValueError` raised on anything else. -/
def pyInt? (s : String) : Option Int :=
  match s.toList with
  | '-' :: rest => (pyNat? rest).map (fun n => -(n : Int))
  | l => (pyNat? l).map (fun n => (n : Int))

/-- Python `os.path.join(a, b)` for two components. -/
def pyJoin (a b : String) : String :=
  if b.toList.head? = some '/' then b
  else if a = "" ∨ a.toList.getLast? = some '/' then a ++ b
  else a ++ "/" ++ b

/-! ## Data model

The libvirt definition document is reduced to what the plugin reads and
writes: its list of `<disk>` device nodes (each with a `type` attribute,
an optional `<source>` child carrying an optional `file` attribute, and
an optional `<driver>` child carrying an optional `type` attribute) plus
an uninterpreted remainder standing for every other part of the document. -/

structure SourceElem where
  file : Option String
  srest : String
deriving DecidableEq

structure DriverElem where
  dtype : Option String
  drest : String
deriving DecidableEq

structure DiskNode where
  typ : String
  source : Option SourceElem
  driver : Option DriverElem
  nrest : String
deriving DecidableEq

structure VMDef where
  devices : List DiskNode
  vrest : String
deriving DecidableEq

/-- The `file` attribute of a disk node's `<source>` child, when both exist. -/
def DiskNode.sourceFile (d : DiskNode) : Option String :=
  d.source.bind SourceElem.file

/-- The ambient state a handler can observe and mutate: the entity's
folder, the set of existing filesystem paths, the XMPP presence pair,
the optional definition document, the log of committed definitions
(`entity.define` / `libvirt_connection.defineXML`), the log of
`push_change` notifications, and the log of spawned subprocess argv
vectors. -/
structure World where
  folder : String
  qemuBin : String
  fs : List String
  xmppstatus : String
  xmppstatusshow : String
  definition : Option VMDef
  commits : List VMDef
  pushes : List (String × String)
  calls : List (List String)
deriving DecidableEq

/-- `entity.change_presence(presence_show=sh, presence_status=st)`. -/
def change_presence (w : World) (sh st : String) : World :=
  { w with xmppstatusshow := sh, xmppstatus := st }

/-- Replies: `iq.buildReply("result")` or `build_error_iq` with the
action's numeric error code. -/
inductive Reply where
  | result
  | error (code : Int)
deriving DecidableEq

/-! ## iq_create -/

/-- The size guard of `iq_create` (lines 149-152): with unit "M" or "G"
the size string is parsed; `none` models the `ValueError` of `int()`,
`some true` the explicit "too big" rejection. -/
def sizeGuard (unit size : String) : Option Bool :=
  if unit = "M" then (pyInt? size).map (fun n => n ≥ 1000000000)
  else if unit = "G" then (pyInt? size).map (fun n => n ≥ 10000)
  else some false

/-- Destination path computed by `iq_create` (line 148). -/
def createDest (folder name format : String) : String :=
  folder ++ "/" ++ sanitizeName name ++ "." ++ format

/-- `iq_create`.  `createRet` is the exit code of the spawned
`qemu-img create`; `useMeta` is the `use_metadata_preallocation`
configuration flag. -/
def iq_create (w : World) (createRet : Int) (useMeta : Bool)
    (name size unit format prealloc : String) : Reply × World :=
  let disk_path := createDest w.folder name format
  match sizeGuard unit size with
  | none => (.error (-3001), w)
  | some true => (.error (-3001), w)
  | some false =>
    if disk_path ∈ w.fs then (.error (-3001), w)
    else
      let cmd :=
        if prealloc ≠ "" ∧ prealloc = "metadata" ∧ format = "qcow2" ∧ useMeta = true then
          [w.qemuBin, "create", "-f", format, "-o", "preallocation=metadata", disk_path,
            size ++ unit]
        else [w.qemuBin, "create", "-f", format, disk_path, size ++ unit]
      let w1 := { w with calls := w.calls ++ [cmd] }
      if createRet ≠ 0 then (.error (-3001), w1)
      else (.result,
        { w1 with fs := disk_path :: w1.fs, pushes := w1.pushes ++ [("disk", "created")] })

/-! ## iq_convert -/

/-- Destination path computed by `iq_convert` (line 185):
`path.replace(path.split(".")[-1], "") + format`. -/
def convertDest (path format : String) : String :=
  (pyReplace (lastPartL '.' path.toList) [] path.toList).asString ++ format

/-- Does a disk node's `<source>` child carry `file == path`? (line 194-195). -/
def matchesSource (path : String) (d : DiskNode) : Bool :=
  match d.source with
  | some s => decide (s.file = some path)
  | none => false

/-- The in-place update applied to the first matching disk node
(lines 196-199): set the driver type when a `<driver>` child exists and
retarget the `<source>` file. -/
def updateDrive (format disk_path : String) (d : DiskNode) : DiskNode :=
  { d with
    driver := d.driver.map (fun dr => { dr with dtype := some format }),
    source := d.source.map (fun s => { s with file := some disk_path }) }

/-- The retargeting loop of `iq_convert` (lines 193-201): update the first
disk node whose source file equals `path`, then `break`.  The Bool records
whether `entity.define` was called. -/
def convertRetarget (path disk_path format : String) :
    List DiskNode → List DiskNode × Bool
  | [] => ([], false)
  | d :: rest =>
    if matchesSource path d then (updateDrive format disk_path d :: rest, true)
    else
      let r := convertRetarget path disk_path format rest
      (d :: r.1, r.2)

/-- `iq_convert`.  `convertRet` is the exit code of the spawned
`qemu-img convert`; on exit code 0 the destination file exists. -/
def iq_convert (w : World) (convertRet : Int) (path format : String) : Reply × World :=
  let old_status := w.xmppstatus
  let old_show := w.xmppstatusshow
  let disk_path := convertDest path format
  if disk_path ∈ w.fs then
    (.error (-3005), change_presence w old_show old_status)
  else
    let w1 := change_presence w "dnd" "Converting a disk..."
    let w1 := { w1 with calls := w1.calls ++ [[w.qemuBin, "convert", path, "-O", format, disk_path]] }
    if convertRet ≠ 0 then (.error (-3005), change_presence w1 old_show old_status)
    else
      let w2 := { w1 with fs := disk_path :: w1.fs }
      if path ∈ w2.fs then
        let w3 := { w2 with fs := w2.fs.erase path }
        match w3.definition with
        | none => (.error (-3005), change_presence w3 old_show old_status)
        | some defn =>
          let r := convertRetarget path disk_path format defn.devices
          let defn' := { defn with devices := r.1 }
          let w4 := { w3 with
            definition := some defn',
            commits := if r.2 then w3.commits ++ [defn'] else w3.commits }
          let w5 := change_presence w4 old_show old_status
          (.result, { w5 with pushes := w5.pushes ++ [("disk", "converted")] })
      else (.error (-3005), change_presence w2 old_show old_status)

/-! ## iq_rename -/

/-- Destination path computed by `iq_rename` (lines 223-225). -/
def renameDest (folder path newname : String) : String :=
  pyJoin folder (sanitizeName newname ++ "." ++ (lastPartL '.' path.toList).asString)

/-- `iq_rename`.  A missing source path makes `os.rename` raise. -/
def iq_rename (w : World) (path newname : String) : Reply × World :=
  let newpath := renameDest w.folder path newname
  if newpath ∈ w.fs then (.error (-3006), w)
  else if path ∈ w.fs then
    (.result, { w with
      fs := newpath :: w.fs.erase path,
      pushes := w.pushes ++ [("disk", "renamed")] })
  else (.error (-3006), w)

/-! ## iq_delete -/

/-- Path unlinked by `iq_delete` (lines 248-249):
`entity.folder + "/" + disk_name.split("/")[-1]`. -/
def deleteTarget (folder name : String) : String :=
  folder ++ "/" ++ (lastPartL '/' name.toList).asString

/-- The undefine loop of `iq_delete` (lines 257-264) over the devices list:
`getTags('disk', attrs={'type': 'file'})` selects the file-type disk
nodes; for each, `getTag('source').getAttr('file')` is compared with the
deleted path and matching nodes are removed.  A file-type node without a
`<source>` child raises (`AttributeError` on `None`), after the removals
made so far.  Returns (surviving devices, removed-any flag, crashed flag). -/
def scanDisks (target : String) : List DiskNode → List DiskNode × Bool × Bool
  | [] => ([], false, false)
  | d :: rest =>
    if d.typ = "file" then
      match d.source with
      | none => (d :: rest, false, true)
      | some s =>
        let r := scanDisks target rest
        if s.file = some target then (r.1, true, r.2.2)
        else (d :: r.1, r.2.1, r.2.2)
    else
      let r := scanDisks target rest
      (d :: r.1, r.2.1, r.2.2)

/-- `iq_delete`.  Note that on the failure paths reached after
`change_presence("dnd", "Deleting a drive...")` the `except` clause does
not restore the presence (the Python handler has no restore there). -/
def iq_delete (w : World) (name undefine : String) : Reply × World :=
  let target := deleteTarget w.folder name
  let old_status := w.xmppstatus
  let old_show := w.xmppstatusshow
  let w1 := change_presence w "dnd" "Deleting a drive..."
  if target ∈ w1.fs then
    let w2 := { w1 with fs := w1.fs.erase target }
    match w2.definition with
    | some defn =>
      if undefine = "yes" then
        let r := scanDisks target defn.devices
        let defn' := { defn with devices := r.1 }
        let w3 := { w2 with definition := some defn' }
        if r.2.2 then (.error (-3002), w3)
        else
          let w4 :=
            if r.2.1 then
              { w3 with
                commits := w3.commits ++ [defn'],
                pushes := w3.pushes ++ [("virtualmachine:definition", "defined")] }
            else w3
          let w5 := change_presence w4 old_show old_status
          (.result, { w5 with pushes := w5.pushes ++ [("disk", "deleted")] })
      else
        let w5 := change_presence w2 old_show old_status
        (.result, { w5 with pushes := w5.pushes ++ [("disk", "deleted")] })
    | none =>
      let w5 := change_presence w2 old_show old_status
      (.result, { w5 with pushes := w5.pushes ++ [("disk", "deleted")] })
  else (.error (-3002), w1)

/-! ## iq_getiso -/

structure IsoNode where
  name : String
  path : String
deriving DecidableEq

/-- `file` output matched for an ISO-9660 signature (lines 327 and 332):
lowercase, then substring search for "iso 9660". -/
def isoMatch (s : String) : Bool :=
  decide ("iso 9660".toList <:+: s.toList.map Char.toLower)

/-- `iq_getiso` (lines 323-334).  `lsFolder`/`lsShared` are the entries
listed in the machine folder and the shared ISO folder; `classify` is the
output of the `file` probe per path.  Note the first loop probes the
entry's name under the shared ISO folder, not under the machine folder. -/
def iq_getiso (folder shared : String) (lsFolder lsShared : List String)
    (classify : String → String) : List IsoNode :=
  ((lsFolder.filter (fun iso => isoMatch (classify (shared ++ "/" ++ iso)))).map
    (fun iso => { name := iso, path := folder ++ "/" ++ iso }))
  ++ ((lsShared.filter (fun iso => isoMatch (classify (shared ++ "/" ++ iso)))).map
    (fun iso => { name := iso, path := shared ++ "/" ++ iso }))

/-! ## process_iq -/

/-- The actions `process_iq` dispatches on (lines 117-128). -/
def knownActions : List String :=
  ["create", "delete", "get", "getiso", "convert", "rename"]

/-- `process_iq` dispatch (lines 112-131), abstracting the handlers as
`handle`.  Returns the reply passed to `conn.send` (none when `reply`
stays `None`, in which case `NodeProcessed` is not raised either) and the
list of handlers that ran.  `migCode` is the externally owned
`ARCHIPEL_ERROR_CODE_VM_MIGRATING`. -/
def process_iq (migrating : Bool) (migCode : Int) (action : String)
    (handle : String → Reply) : Option Reply × List String :=
  if migrating = true ∧ action ∉ (["get", "getiso"] : List String) then
    (some (.error migCode), [])
  else if action ∈ knownActions then (some (handle action), [action])
  else (none, [])

/-! ## Path resolution

To state confinement ("the path does not escape the folder") we resolve a
path's "/"-separated segments, treating ".." as popping one directory and
"." or an empty segment as no-ops; a path stays under a folder when the
folder's resolved segments form an initial run of the path's. -/

/-- Resolve segments left to right onto a stack (most recent first). -/
def resolveOnto (stack : List (List Char)) : List (List Char) → List (List Char)
  | [] => stack
  | s :: rest =>
    if s = ['.', '.'] then resolveOnto (stack.drop 1) rest
    else if s = ['.'] ∨ s = [] then resolveOnto stack rest
    else resolveOnto (s :: stack) rest

/-- Resolved segment list of a path. -/
def resolveSegs (p : String) : List (List Char) :=
  (resolveOnto [] (pySplit '/' p.toList)).reverse


/-! ## Lemmas about the string primitives -/

theorem toList_append (a b : String) : (a ++ b).toList = a.toList ++ b.toList :=
  String.data_append a b

theorem pyRepF_nil (pat rep : List Char) (fuel : Nat) : pyRepF pat rep fuel [] = [] := by
  cases fuel <;> rfl

theorem pyRepF_mem {pat rep : List Char} {a : Char} :
    ∀ (fuel : Nat) (s : List Char), a ∈ pyRepF pat rep fuel s → a ∈ rep ∨ a ∈ s := by
  intro fuel
  induction fuel with
  | zero => intro s h; exact Or.inr h
  | succ n ih =>
    intro s h
    match s with
    | [] => simp [pyRepF] at h
    | c :: rest =>
      rw [pyRepF] at h
      split at h
      · rcases List.mem_append.mp h with h1 | h1
        · exact Or.inl h1
        · rcases ih _ h1 with h2 | h2
          · exact Or.inl h2
          · exact Or.inr (List.drop_subset _ _ h2)
      · rcases List.mem_cons.mp h with h1 | h1
        · exact Or.inr (h1 ▸ List.mem_cons_self c rest)
        · rcases ih _ h1 with h2 | h2
          · exact Or.inl h2
          · exact Or.inr (List.mem_cons_of_mem c h2)

theorem pyRepF_not_mem_single {c : Char} {rep : List Char} (hc : c ∉ rep) :
    ∀ (fuel : Nat) (s : List Char), s.length ≤ fuel → c ∉ pyRepF [c] rep fuel s := by
  intro fuel
  induction fuel with
  | zero =>
    intro s hs
    have hnil : s = [] := List.eq_nil_of_length_eq_zero (Nat.le_zero.mp hs)
    subst hnil
    simp [pyRepF]
  | succ n ih =>
    intro s hs
    match s with
    | [] => simp [pyRepF]
    | d :: rest =>
      rw [pyRepF]
      split
      · next hcond =>
        intro hmem
        rcases List.mem_append.mp hmem with h1 | h1
        · exact hc h1
        · exact ih (List.drop 1 (d :: rest)) (by simpa using Nat.le_of_succ_le_succ hs)
            (by simpa using h1)
      · next hcond =>
        have hd : d ≠ c := by
          intro hdc
          exact hcond ⟨by simp, by simp [hdc, List.isPrefixOf_iff_prefix]⟩
        intro hmem
        rcases List.mem_cons.mp hmem with h1 | h1
        · exact hd h1.symm
        · exact ih rest (Nat.le_of_succ_le_succ hs) h1

theorem pyRepF_dd_head (fuel : Nat) (s : List Char) (h : s.head? ≠ some '.') :
    (pyRepF ['.', '.'] ['_'] fuel s).head? ≠ some '.' := by
  match fuel, s with
  | 0, s => exact h
  | n + 1, [] => simp [pyRepF]
  | n + 1, c :: rest =>
    rw [pyRepF]
    split
    · simp
    · simpa using h

theorem pyRepF_no_dd :
    ∀ (fuel : Nat) (s : List Char), s.length ≤ fuel →
      ¬ (['.', '.'] <:+: pyRepF ['.', '.'] ['_'] fuel s) := by
  intro fuel
  induction fuel with
  | zero =>
    intro s hs
    have hnil : s = [] := List.eq_nil_of_length_eq_zero (Nat.le_zero.mp hs)
    subst hnil
    simp [pyRepF]
  | succ n ih =>
    intro s hs
    match s with
    | [] => simp [pyRepF]
    | c :: rest =>
      rw [pyRepF]
      split
      · next hcond =>
        have hpre := List.isPrefixOf_iff_prefix.mp hcond.2
        obtain ⟨t, ht⟩ := hpre
        simp only [List.cons_append, List.nil_append, List.cons.injEq] at ht
        obtain ⟨hc, hrest⟩ := ht
        intro hinf
        simp only [List.singleton_append] at hinf
        rw [List.infix_cons_iff] at hinf
        rcases hinf with hp | hinf
        · rcases hp with ⟨u, hu⟩
          simp at hu
        · have hlen : (List.drop 2 (c :: rest)).length ≤ n := by
            simp only [List.length_cons] at hs
            simp only [List.length_drop, List.length_cons]
            omega
          exact ih _ hlen (by simpa using hinf)
      · next hcond =>
        intro hinf
        rw [List.infix_cons_iff] at hinf
        rcases hinf with hp | hinf
        · rcases hp with ⟨u, hu⟩
          simp only [List.cons_append, List.cons.injEq] at hu
          obtain ⟨hc, hu2⟩ := hu
          -- c = '.' and the result's tail would have to start with '.'
          have hresthead : rest.head? ≠ some '.' := by
            intro hh
            apply hcond
            refine ⟨by simp, ?_⟩
            cases rest with
            | nil => simp at hh
            | cons r0 r' =>
              simp only [List.head?_cons, Option.some.injEq] at hh
              subst hh
              rw [← hc]
              rw [List.isPrefixOf_iff_prefix]
              exact ⟨r', rfl⟩
          have := pyRepF_dd_head n rest hresthead
          rw [← hu2] at this
          simp at this
        · exact ih rest (Nat.le_of_succ_le_succ hs) hinf

/-- "The pattern occurs in `s` only as its final suffix": every index where
`pat` occurs is the one ending at the end of `s`. -/
def onlySuffix (pat s : List Char) : Prop :=
  ∀ i < s.length, (s.drop i).take pat.length = pat → i + pat.length = s.length

instance (pat s : List Char) : Decidable (onlySuffix pat s) := by
  unfold onlySuffix
  infer_instance

theorem pyRepF_unique {pat : List Char} (hpat : pat ≠ []) :
    ∀ (fuel : Nat) (s u : List Char), s.length ≤ fuel → s = u ++ pat → onlySuffix pat s →
      pyRepF pat [] fuel s = u := by
  intro fuel
  induction fuel with
  | zero =>
    intro s u hs hsu _
    have hnil : s = [] := List.eq_nil_of_length_eq_zero (Nat.le_zero.mp hs)
    rw [hnil] at hsu
    exact absurd hsu.symm (by simp [hpat])
  | succ n ih =>
    intro s u hs hsu honly
    match s, hsu with
    | [], hsu => exact absurd hsu.symm (by simp [hpat])
    | c :: rest, hsu =>
      rw [pyRepF]
      split
      · next hcond =>
        obtain ⟨r, hr⟩ := List.isPrefixOf_iff_prefix.mp hcond.2
        have h0 := honly 0 (by simp) (by
          rw [List.drop_zero, ← hr, List.take_left])
        have hrnil : r = [] := by
          have hlen : (pat ++ r).length = pat.length := by rw [hr]; simpa using h0.symm
          simpa using hlen
        rw [hrnil, List.append_nil] at hr
        have hu : u = [] := by
          have h1 : u ++ pat = [] ++ pat := by rw [List.nil_append, ← hsu, ← hr]
          exact List.append_cancel_right h1
        rw [hu, List.nil_append, hr, List.drop_length, pyRepF_nil]
      · next hcond =>
        have hune : u ≠ [] := by
          intro hu
          rw [hu, List.nil_append] at hsu
          exact hcond ⟨hpat, List.isPrefixOf_iff_prefix.mpr (hsu ▸ List.prefix_refl _)⟩
        match u, hune with
        | u0 :: u', _ =>
          simp only [List.cons_append, List.cons.injEq] at hsu
          obtain ⟨hc, hrest⟩ := hsu
          have honly' : onlySuffix pat rest := by
            intro i hi htake
            have := honly (i + 1) (by simpa using Nat.succ_lt_succ hi) (by simpa using htake)
            simpa [Nat.succ_add] using this
          have := ih rest u' (Nat.le_of_succ_le_succ hs) hrest honly'
          rw [this, hc]

theorem pySplit_ne_nil (sep : Char) (l : List Char) : pySplit sep l ≠ [] := by
  match l with
  | [] => simp [pySplit]
  | c :: rest =>
    rw [pySplit]
    cases hps : pySplit sep rest with
    | nil => simp
    | cons h t => by_cases hc : c = sep <;> simp [hc]

theorem lastPartL_spec (sep : Char) :
    ∀ l : List Char,
      sep ∉ lastPartL sep l ∧ (∃ pre, l = pre ++ lastPartL sep l) ∧
        ((pySplit sep l).length = 1 → lastPartL sep l = l) := by
  intro l
  induction l with
  | nil =>
    exact ⟨by simp [lastPartL, pySplit], ⟨[], by simp [lastPartL, pySplit]⟩,
      fun _ => by simp [lastPartL, pySplit]⟩
  | cons c rest ih =>
    obtain ⟨ih1, ⟨pre, ihpre⟩, ih3⟩ := ih
    cases hps : pySplit sep rest with
    | nil => exact absurd hps (pySplit_ne_nil sep rest)
    | cons h t =>
      by_cases hc : c = sep
      · have hsplit : pySplit sep (c :: rest) = [] :: h :: t := by
          rw [pySplit, hps]
          simp [hc]
        have hlast : lastPartL sep (c :: rest) = lastPartL sep rest := by
          simp [lastPartL, hsplit, hps, List.getLastD_cons]
        refine ⟨by rw [hlast]; exact ih1, ⟨c :: pre, by rw [hlast]; simpa using ihpre⟩, ?_⟩
        intro hlen
        rw [hsplit] at hlen
        simp at hlen
      · have hsplit : pySplit sep (c :: rest) = (c :: h) :: t := by
          rw [pySplit, hps]
          simp [hc]
        cases t with
        | nil =>
          have hrest : h = rest := by
            have := ih3 (by rw [hps]; rfl)
            rw [lastPartL, hps, List.getLastD_cons] at this
            simpa using this
          have hlast : lastPartL sep (c :: rest) = c :: rest := by
            rw [lastPartL, hsplit, List.getLastD_cons]
            simp [hrest]
          refine ⟨?_, ⟨[], by rw [hlast]; simp⟩, fun _ => hlast⟩
          rw [hlast]
          intro hmem
          rcases List.mem_cons.mp hmem with h1 | h1
          · exact hc h1.symm
          · have hns : sep ∉ lastPartL sep rest := ih1
            rw [lastPartL, hps, List.getLastD_cons] at hns
            rw [hrest] at hns
            simp at hns
            exact hns h1
        | cons t0 t1 =>
          have hlast : lastPartL sep (c :: rest) = lastPartL sep rest := by
            simp [lastPartL, hsplit, hps, List.getLastD_cons]
          refine ⟨by rw [hlast]; exact ih1, ⟨c :: pre, by rw [hlast]; simpa using ihpre⟩, ?_⟩
          intro hlen
          rw [hsplit] at hlen
          simp at hlen

theorem pySplit_no_sep (sep : Char) :
    ∀ l : List Char, sep ∉ l → pySplit sep l = [l] := by
  intro l
  induction l with
  | nil => intro _; rfl
  | cons c rest ih =>
    intro hmem
    have hc : c ≠ sep := fun h => hmem (h ▸ List.mem_cons_self c rest)
    have hrest : sep ∉ rest := fun h => hmem (List.mem_cons_of_mem c h)
    rw [pySplit, ih hrest]
    simp [hc]

theorem pySplit_append_sep (sep : Char) :
    ∀ l₁ l₂ : List Char, pySplit sep (l₁ ++ sep :: l₂) = pySplit sep l₁ ++ pySplit sep l₂ := by
  intro l₁ l₂
  induction l₁ with
  | nil =>
    rw [List.nil_append, pySplit]
    cases hps : pySplit sep l₂ with
    | nil => exact absurd hps (pySplit_ne_nil sep l₂)
    | cons h t => simp [pySplit, hps]
  | cons c rest ih =>
    rw [List.cons_append, pySplit, ih]
    cases hps : pySplit sep rest with
    | nil => exact absurd hps (pySplit_ne_nil sep rest)
    | cons h t =>
      by_cases hc : c = sep <;> simp [hc, pySplit, hps]

/-! ## Lemmas about path resolution -/

theorem resolveOnto_append (stack : List (List Char)) (l₁ l₂ : List (List Char)) :
    resolveOnto stack (l₁ ++ l₂) = resolveOnto (resolveOnto stack l₁) l₂ := by
  induction l₁ generalizing stack with
  | nil => rfl
  | cons s rest ih =>
    rw [List.cons_append, resolveOnto, resolveOnto]
    split
    · exact ih _
    · split
      · exact ih _
      · exact ih _

theorem resolve_under (f seg : String) (hsep : '/' ∉ seg.toList)
    (hdd : seg.toList ≠ ['.', '.']) :
    resolveSegs f <+: resolveSegs (f ++ "/" ++ seg) := by
  have hl : (f ++ "/" ++ seg).toList = f.toList ++ '/' :: seg.toList := by
    rw [toList_append, toList_append]
    simp
  rw [resolveSegs, resolveSegs, hl, pySplit_append_sep, resolveOnto_append,
    pySplit_no_sep '/' seg.toList hsep]
  rw [resolveOnto, if_neg hdd]
  by_cases hdot : seg.toList = ['.'] ∨ seg.toList = []
  · rw [if_pos hdot]
    exact List.prefix_refl _
  · rw [if_neg hdot, resolveOnto, List.reverse_cons]
    exact List.prefix_append _ _

/-! ## Lemmas about the definition-document operations -/

theorem convertRetarget_length (path disk_path format : String) :
    ∀ ds : List DiskNode, ((convertRetarget path disk_path format ds).1).length = ds.length := by
  intro ds
  induction ds with
  | nil => rfl
  | cons d rest ih =>
    rw [convertRetarget]
    split
    · simp
    · simpa using ih

theorem convertRetarget_frame (path disk_path format : String) :
    ∀ (ds : List DiskNode) (i : Nat), i ≠ ds.findIdx (matchesSource path) →
      ((convertRetarget path disk_path format ds).1)[i]? = ds[i]? := by
  intro ds
  induction ds with
  | nil => intro i _; rfl
  | cons d rest ih =>
    intro i hi
    rw [convertRetarget]
    rw [List.findIdx_cons] at hi
    by_cases hm : matchesSource path d
    · rw [if_pos hm]
      rw [hm] at hi
      simp only [cond_true] at hi
      match i, hi with
      | j + 1, _ => simp
    · rw [if_neg hm]
      rw [Bool.not_eq_true] at hm
      rw [hm] at hi
      simp only [cond_false] at hi
      match i with
      | 0 => simp
      | j + 1 =>
        simp only [List.getElem?_cons_succ]
        exact ih j (fun h => hi (by rw [h]))

theorem convertRetarget_hit (path disk_path format : String) :
    ∀ (ds : List DiskNode) (m : DiskNode),
      ds[ds.findIdx (matchesSource path)]? = some m →
        ((convertRetarget path disk_path format ds).1)[ds.findIdx (matchesSource path)]? =
          some (updateDrive format disk_path m) := by
  intro ds
  induction ds with
  | nil => intro m h; simp at h
  | cons d rest ih =>
    intro m hm
    rw [convertRetarget]
    rw [List.findIdx_cons] at hm ⊢
    by_cases hmatch : matchesSource path d
    · rw [if_pos hmatch]
      rw [hmatch] at hm ⊢
      simp only [cond_true] at hm ⊢
      simp at hm
      simp [hm]
    · rw [if_neg hmatch]
      rw [Bool.not_eq_true] at hmatch
      rw [hmatch] at hm ⊢
      simp only [cond_false] at hm ⊢
      simp only [List.getElem?_cons_succ] at hm ⊢
      exact ih m hm

theorem scanDisks_cons_file_match (target : String) (d : DiskNode) (rest : List DiskNode)
    (s : SourceElem) (hf : d.typ = "file") (hsrc : d.source = some s)
    (hfile : s.file = some target) :
    scanDisks target (d :: rest) =
      ((scanDisks target rest).1, true, (scanDisks target rest).2.2) := by
  rw [scanDisks, if_pos hf, hsrc]
  simp [hfile]

theorem scanDisks_cons_file_nomatch (target : String) (d : DiskNode) (rest : List DiskNode)
    (s : SourceElem) (hf : d.typ = "file") (hsrc : d.source = some s)
    (hfile : ¬ s.file = some target) :
    scanDisks target (d :: rest) =
      (d :: (scanDisks target rest).1, (scanDisks target rest).2.1,
        (scanDisks target rest).2.2) := by
  rw [scanDisks, if_pos hf, hsrc]
  simp [hfile]

theorem scanDisks_cons_file_none (target : String) (d : DiskNode) (rest : List DiskNode)
    (hf : d.typ = "file") (hsrc : d.source = none) :
    scanDisks target (d :: rest) = (d :: rest, false, true) := by
  rw [scanDisks, if_pos hf, hsrc]

theorem scanDisks_cons_nonfile (target : String) (d : DiskNode) (rest : List DiskNode)
    (hf : ¬ d.typ = "file") :
    scanDisks target (d :: rest) =
      (d :: (scanDisks target rest).1, (scanDisks target rest).2.1,
        (scanDisks target rest).2.2) := by
  rw [scanDisks, if_neg hf]

theorem scanDisks_no_crash (target : String) :
    ∀ ds : List DiskNode, (scanDisks target ds).2.2 = false →
      ∀ d ∈ (scanDisks target ds).1, d.typ = "file" → d.sourceFile ≠ some target := by
  intro ds
  induction ds with
  | nil => intro _ d hd; simp [scanDisks] at hd
  | cons d rest ih =>
    intro hcr e he htyp
    by_cases hf : d.typ = "file"
    · cases hsrc : d.source with
      | none =>
        rw [scanDisks_cons_file_none target d rest hf hsrc] at hcr
        simp at hcr
      | some s =>
        by_cases hfile : s.file = some target
        · rw [scanDisks_cons_file_match target d rest s hf hsrc hfile] at hcr he
          exact ih hcr e he htyp
        · rw [scanDisks_cons_file_nomatch target d rest s hf hsrc hfile] at hcr he
          rcases List.mem_cons.mp he with h1 | h1
          · subst h1
            rw [DiskNode.sourceFile, hsrc]
            simpa using hfile
          · exact ih hcr e h1 htyp
    · rw [scanDisks_cons_nonfile target d rest hf] at hcr he
      rcases List.mem_cons.mp he with h1 | h1
      · subst h1; exact absurd htyp hf
      · exact ih hcr e h1 htyp

theorem scanDisks_removed_iff (target : String) :
    ∀ ds : List DiskNode, (scanDisks target ds).2.2 = false →
      ((scanDisks target ds).2.1 = true ↔
        ∃ d ∈ ds, d.typ = "file" ∧ d.sourceFile = some target) := by
  intro ds
  induction ds with
  | nil => intro _; simp [scanDisks]
  | cons d rest ih =>
    intro hcr
    by_cases hf : d.typ = "file"
    · cases hsrc : d.source with
      | none =>
        rw [scanDisks_cons_file_none target d rest hf hsrc] at hcr
        simp at hcr
      | some s =>
        by_cases hfile : s.file = some target
        · rw [scanDisks_cons_file_match target d rest s hf hsrc hfile] at hcr ⊢
          constructor
          · intro _
            exact ⟨d, List.mem_cons_self d rest, hf,
              by rw [DiskNode.sourceFile, hsrc]; exact hfile⟩
          · intro _; rfl
        · rw [scanDisks_cons_file_nomatch target d rest s hf hsrc hfile] at hcr ⊢
          rw [ih hcr]
          constructor
          · intro ⟨e, he, h1, h2⟩
            exact ⟨e, List.mem_cons_of_mem d he, h1, h2⟩
          · intro ⟨e, he, h1, h2⟩
            rcases List.mem_cons.mp he with h3 | h3
            · subst h3
              rw [DiskNode.sourceFile, hsrc] at h2
              exact absurd h2 (by simpa using hfile)
            · exact ⟨e, h3, h1, h2⟩
    · rw [scanDisks_cons_nonfile target d rest hf] at hcr ⊢
      rw [ih hcr]
      constructor
      · intro ⟨e, he, h1, h2⟩
        exact ⟨e, List.mem_cons_of_mem d he, h1, h2⟩
      · intro ⟨e, he, h1, h2⟩
        rcases List.mem_cons.mp he with h3 | h3
        · subst h3; exact absurd h1 hf
        · exact ⟨e, h3, h1, h2⟩

/-! ## Claim theorems -/

theorem change_presence_self (w : World) : change_presence w w.xmppstatusshow w.xmppstatus = w :=
  rfl

/-- C5: for every create, rename, or convert request whose computed
destination path already exists on the filesystem, the operation returns
an error reply with the action's error code and performs no mutation at
all: the returned world is the input world (same filesystem, same
subprocess log, same document, same presence). -/
theorem claim5_no_overwrite (w : World) (createRet convertRet : Int) (useMeta : Bool)
    (name size unit format prealloc cpath cformat rpath newname : String) :
    (createDest w.folder name format ∈ w.fs →
      iq_create w createRet useMeta name size unit format prealloc = (.error (-3001), w)) ∧
    (convertDest cpath cformat ∈ w.fs →
      iq_convert w convertRet cpath cformat = (.error (-3005), w)) ∧
    (renameDest w.folder rpath newname ∈ w.fs →
      iq_rename w rpath newname = (.error (-3006), w)) := by
  refine ⟨?_, ?_, ?_⟩
  · intro h
    simp only [iq_create]
    split
    · rfl
    · rfl
    · rw [if_pos h]
  · intro h
    simp only [iq_convert]
    rw [if_pos h, change_presence_self]
  · intro h
    simp only [iq_rename]
    rw [if_pos h]

/-- C7: a create request with unit "M" and size at least 1000000000, or
unit "G" and size at least 10000, yields the create error code -3001 and
leaves the world untouched; in particular no subprocess is spawned and no
file is created. -/
theorem claim7_size_guard (w : World) (createRet : Int) (useMeta : Bool)
    (name size unit format prealloc : String) (n : Int)
    (h : (unit = "M" ∧ pyInt? size = some n ∧ 1000000000 ≤ n) ∨
         (unit = "G" ∧ pyInt? size = some n ∧ 10000 ≤ n)) :
    iq_create w createRet useMeta name size unit format prealloc = (.error (-3001), w) := by
  have hguard : sizeGuard unit size = some true := by
    rcases h with ⟨h1, h2, h3⟩ | ⟨h1, h2, h3⟩
    · rw [sizeGuard, if_pos h1, h2]
      simp [h3, ge_iff_le]
    · rw [sizeGuard, h1]
      rw [if_neg (by decide), if_pos rfl, h2]
      simp [h3, ge_iff_le]
  simp only [iq_create, hguard]

/-- C10: when the machine is not migrating and the request's action is
none of create, delete, get, getiso, convert, rename, the dispatcher
sends no reply at all and runs no handler. -/
theorem claim10_unknown_action_dropped (action : String) (migCode : Int)
    (handle : String → Reply) (h : action ∉ knownActions) :
    process_iq false migCode action handle = (none, []) := by
  simp only [process_iq]
  rw [if_neg (by simp)]
  rw [if_neg h]

/-- C1 (amended): `iq_convert` restores the presence pair captured at the
start of the handler on every path, success and failure alike;
`iq_delete` restores it on its success path.  (On a delete failure raised
after the busy status is set -- for example a failing unlink -- the
`except` clause of `iq_delete` builds the error reply without restoring
the presence, so the original claim fails there; see the
counterexample.) -/
theorem claim1_presence (w : World) (convertRet : Int) (p f nm u : String) :
    ((iq_convert w convertRet p f).2.xmppstatus = w.xmppstatus ∧
      (iq_convert w convertRet p f).2.xmppstatusshow = w.xmppstatusshow) ∧
    ((iq_delete w nm u).1 = .result →
      (iq_delete w nm u).2.xmppstatus = w.xmppstatus ∧
      (iq_delete w nm u).2.xmppstatusshow = w.xmppstatusshow) := by
  constructor
  · simp only [iq_convert]
    split
    · simp [change_presence]
    · split
      · simp [change_presence]
      · split
        · split
          · simp [change_presence]
          · simp [change_presence]
        · simp [change_presence]
  · simp only [iq_delete]
    split
    · split
      · split
        · split
          · intro h
            simp at h
          · intro _
            simp [change_presence]
        · intro _
          simp [change_presence]
      · intro _
        simp [change_presence]
    · intro h
      simp at h

/-- The world of the C1 counterexample: the agent is online and its
folder holds no file, so the unlink of `iq_delete` raises. -/
def c1World : World :=
  { folder := "/vm", qemuBin := "qemu-img", fs := [],
    xmppstatus := "Online", xmppstatusshow := "", definition := none,
    commits := [], pushes := [], calls := [] }

/-- C1 counterexample: a delete request whose unlink fails returns the
delete error, yet the presence observed after the handler is the
transient busy pair, not the pair captured at the start -- the claim's
"on every path: success and failure alike" is false for `iq_delete`. -/
theorem claim1_counterexample :
    (iq_delete c1World "a.img" "no").1 = .error (-3002) ∧
    (iq_delete c1World "a.img" "no").2.xmppstatus ≠ c1World.xmppstatus ∧
    (iq_delete c1World "a.img" "no").2.xmppstatus = "Deleting a drive..." := by
  decide

/-- A world in which both a convert run and a delete run are exercised for
the C1 witness: the folder holds the file `a.img`. -/
def c1WitWorld : World :=
  { folder := "/vm", qemuBin := "qemu-img", fs := ["/vm/a.img"],
    xmppstatus := "Online", xmppstatusshow := "", definition := none,
    commits := [], pushes := [], calls := [] }

/-- C1 witness: the amended theorem applied at a concrete input -- a
failing convert (exit code 5) and a successful delete both end with the
initial presence pair. -/
theorem claim1_witness :
    ((iq_convert c1WitWorld 5 "a.img" "qcow2").2.xmppstatus = c1WitWorld.xmppstatus ∧
      (iq_convert c1WitWorld 5 "a.img" "qcow2").2.xmppstatusshow = c1WitWorld.xmppstatusshow) ∧
    ((iq_delete c1WitWorld "a.img" "no").2.xmppstatus = c1WitWorld.xmppstatus ∧
      (iq_delete c1WitWorld "a.img" "no").2.xmppstatusshow = c1WitWorld.xmppstatusshow) :=
  ⟨(claim1_presence c1WitWorld 5 "a.img" "qcow2" "a.img" "no").1,
   (claim1_presence c1WitWorld 5 "a.img" "qcow2" "a.img" "no").2 (by decide)⟩

/-- C4 (amended): the only path `iq_delete` ever unlinks is the machine
folder joined with the last "/"-separated segment of the supplied name;
that segment contains no path separator, and whenever it is not the
parent-directory token ".." the resulting path stays under the machine
folder.  (A name whose last segment is exactly ".." -- for example
"a/.." -- escapes the folder, so the unconditional confinement of the
original claim is false; see the counterexample.) -/
theorem claim4_delete_confinement (w : World) (nm u : String) :
    ((iq_delete w nm u).2.fs = w.fs ∨
      (iq_delete w nm u).2.fs = w.fs.erase (deleteTarget w.folder nm)) ∧
    '/' ∉ lastPartL '/' nm.toList ∧
    (lastPartL '/' nm.toList ≠ ['.', '.'] →
      resolveSegs w.folder <+: resolveSegs (deleteTarget w.folder nm)) := by
  refine ⟨?_, (lastPartL_spec '/' nm.toList).1, ?_⟩
  · simp only [iq_delete]
    split
    · split
      · split
        · split
          · right
            simp [change_presence]
          · right
            split
            · simp [change_presence]
            · simp [change_presence]
        · right
          simp [change_presence]
      · right
        simp [change_presence]
    · left
      simp [change_presence]
  · intro hdd
    exact resolve_under w.folder ((lastPartL '/' nm.toList).asString)
      (lastPartL_spec '/' nm.toList).1 hdd

/-- The world of the C4 counterexample: the parent directory of the
machine folder holds an entry reachable as "/vm/..". -/
def c4World : World :=
  { folder := "/vm", qemuBin := "qemu-img", fs := ["/vm/.."],
    xmppstatus := "Online", xmppstatusshow := "", definition := none,
    commits := [], pushes := [], calls := [] }

/-- C4 counterexample: the delete request with name "a/.." reduces to the
last segment "..", the handler unlinks "/vm/.." successfully, and that
path resolves to the parent of the machine folder -- it escapes, so the
original claim's "the resulting path does not escape that folder" is
false. -/
theorem claim4_counterexample :
    (iq_delete c4World "a/.." "no").1 = .result ∧
    (iq_delete c4World "a/.." "no").2.fs = [] ∧
    deleteTarget "/vm" "a/.." = "/vm/.." ∧
    ¬ (resolveSegs "/vm" <+: resolveSegs (deleteTarget "/vm" "a/..")) := by
  decide

/-- C4 witness: the amended theorem at a concrete input -- deleting
"x/a.img" unlinks "/vm/a.img", whose resolved segments extend those of
"/vm". -/
theorem claim4_witness :
    ((iq_delete c1World "x/a.img" "no").2.fs = c1World.fs ∨
      (iq_delete c1World "x/a.img" "no").2.fs =
        c1World.fs.erase (deleteTarget c1World.folder "x/a.img")) ∧
    '/' ∉ lastPartL '/' "x/a.img".toList ∧
    (resolveSegs c1World.folder <+: resolveSegs (deleteTarget c1World.folder "x/a.img")) :=
  ⟨(claim4_delete_confinement c1World "x/a.img" "no").1,
   (claim4_delete_confinement c1World "x/a.img" "no").2.1,
   (claim4_delete_confinement c1World "x/a.img" "no").2.2 (by decide)⟩

theorem string_ext {s t : String} (h : s.data = t.data) : s = t := by
  cases s; cases t; exact congrArg String.mk h

/-- C9: the sanitised name used by create and rename contains no space,
no path separator and no ".." sequence, and the path built by `iq_create`
as folder + "/" + sanitised-name + "." + format stays under the folder
(for a genuine extension: a nonempty format containing no separator and
no dot). -/
theorem claim9_sanitizer (nm folder format : String) :
    ' ' ∉ (sanitizeName nm).toList ∧
    '/' ∉ (sanitizeName nm).toList ∧
    ¬ (['.', '.'] <:+: (sanitizeName nm).toList) ∧
    (format ≠ "" → '/' ∉ format.toList → '.' ∉ format.toList →
      resolveSegs folder <+: resolveSegs (createDest folder nm format)) := by
  have htl : (sanitizeName nm).toList =
      pyReplace ['.', '.'] ['_'] (pyReplace ['/'] ['_'] (pyReplace [' '] ['_'] nm.toList)) := rfl
  have hsp1 : ' ' ∉ pyReplace [' '] ['_'] nm.toList := by
    rw [pyReplace]
    exact pyRepF_not_mem_single (by decide) nm.toList.length nm.toList le_rfl
  have hsp2 : ' ' ∉ pyReplace ['/'] ['_'] (pyReplace [' '] ['_'] nm.toList) := by
    rw [pyReplace]
    intro hmem
    rcases pyRepF_mem _ _ hmem with h1 | h1
    · simp at h1
    · exact hsp1 h1
  have hsp3 : ' ' ∉ (sanitizeName nm).toList := by
    rw [htl, pyReplace]
    intro hmem
    rcases pyRepF_mem _ _ hmem with h1 | h1
    · simp at h1
    · exact hsp2 h1
  have hsl2 : '/' ∉ pyReplace ['/'] ['_'] (pyReplace [' '] ['_'] nm.toList) := by
    rw [pyReplace]
    exact pyRepF_not_mem_single (by decide) _ _ le_rfl
  have hsl3 : '/' ∉ (sanitizeName nm).toList := by
    rw [htl, pyReplace]
    intro hmem
    rcases pyRepF_mem _ _ hmem with h1 | h1
    · simp at h1
    · exact hsl2 h1
  have hdd3 : ¬ (['.', '.'] <:+: (sanitizeName nm).toList) := by
    rw [htl, pyReplace]
    exact pyRepF_no_dd _ _ le_rfl
  refine ⟨hsp3, hsl3, hdd3, ?_⟩
  intro hne hslf hdotf
  have hassoc : createDest folder nm format =
      folder ++ "/" ++ (sanitizeName nm ++ ("." ++ format)) := by
    rw [createDest, String.append_assoc (folder ++ "/" ++ sanitizeName nm) "." format,
      String.append_assoc (folder ++ "/") (sanitizeName nm) ("." ++ format)]
  rw [hassoc]
  have hseg : (sanitizeName nm ++ ("." ++ format)).toList =
      (sanitizeName nm).toList ++ '.' :: format.toList := by
    rw [toList_append, toList_append]
    rfl
  apply resolve_under
  · rw [hseg]
    intro hmem
    rcases List.mem_append.mp hmem with h1 | h1
    · exact hsl3 h1
    · rcases List.mem_cons.mp h1 with h2 | h2
      · exact absurd h2 (by decide)
      · exact hslf h2
  · rw [hseg]
    intro heq
    have hfl : format.toList ≠ [] := by
      intro hl
      apply hne
      apply string_ext
      exact hl
    cases hfmt : format.toList with
    | nil => exact hfl hfmt
    | cons x t =>
      rw [hfmt] at heq
      have hlen := congrArg List.length heq
      simp only [List.length_append, List.length_cons, List.length_nil] at hlen
      obtain ⟨hsan0, ht0⟩ : (sanitizeName nm).toList.length = 0 ∧ t.length = 0 := by omega
      have hsan : (sanitizeName nm).toList = [] := List.eq_nil_of_length_eq_zero hsan0
      have ht : t = [] := List.eq_nil_of_length_eq_zero ht0
      rw [hsan, ht] at heq
      simp at heq
      apply hdotf
      rw [hfmt, heq]
      exact List.mem_cons_self '.' t

/-- C9 witness: the sanitizer theorem at a concrete hostile name and the
create path it produces under "/vm". -/
theorem claim9_witness :
    ' ' ∉ (sanitizeName "../etc passwd").toList ∧
    '/' ∉ (sanitizeName "../etc passwd").toList ∧
    ¬ (['.', '.'] <:+: (sanitizeName "../etc passwd").toList) ∧
    (resolveSegs "/vm" <+: resolveSegs (createDest "/vm" "../etc passwd" "qcow2")) :=
  ⟨(claim9_sanitizer "../etc passwd" "/vm" "qcow2").1,
   (claim9_sanitizer "../etc passwd" "/vm" "qcow2").2.1,
   (claim9_sanitizer "../etc passwd" "/vm" "qcow2").2.2.1,
   (claim9_sanitizer "../etc passwd" "/vm" "qcow2").2.2.2 (by decide) (by decide) (by decide)⟩

/-- The destination the spec's words describe for a convert: the source
path with its extension (the suffix after the last dot) replaced by the
target format.  Stated from the spec for comparison with `convertDest`,
which is translated from the code. -/
def specConvertDest (path format : String) : String :=
  (path.toList.take (path.toList.length - (lastPartL '.' path.toList).length)).asString ++ format

/-- C2 counterexample: converting "/img/a.img" to "qcow2" uses
`path.replace(ext, "")`, which removes every occurrence of "img", so the
code's destination is "//a.qcow2" while the claimed extension replacement
gives "/img/a.qcow2". -/
theorem claim2_counterexample :
    convertDest "/img/a.img" "qcow2" = "//a.qcow2" ∧
    specConvertDest "/img/a.img" "qcow2" = "/img/a.qcow2" ∧
    convertDest "/img/a.img" "qcow2" ≠ specConvertDest "/img/a.img" "qcow2" := by
  decide

/-- C2 (amended): the destination used by convert is the source path with
every occurrence of the extension substring removed and the format
appended; whenever the extension substring occurs in the path only as its
final suffix (and is nonempty), this coincides with the claimed
replacement of the extension by the format. -/
theorem claim2_convert_dest (path format : String)
    (hne : lastPartL '.' path.toList ≠ [])
    (honly : onlySuffix (lastPartL '.' path.toList) path.toList) :
    convertDest path format = specConvertDest path format := by
  obtain ⟨hsep, ⟨pre, hpre⟩, hlone⟩ := lastPartL_spec '.' path.toList
  rw [convertDest, specConvertDest, pyReplace]
  rw [pyRepF_unique hne path.toList.length path.toList pre le_rfl hpre honly]
  have htake : path.toList.take (path.toList.length - (lastPartL '.' path.toList).length) =
      pre := by
    set L := lastPartL '.' path.toList with hL
    rw [hpre]
    simp [List.take_left]
  rw [htake]

/-- C2 witness: the amended theorem at "/vm/a.img" to "qcow2", where the
extension "img" occurs only as the final suffix; both computations give
"/vm/a.qcow2". -/
theorem claim2_witness : convertDest "/vm/a.img" "qcow2" = specConvertDest "/vm/a.img" "qcow2" :=
  claim2_convert_dest "/vm/a.img" "qcow2" (by decide) (by decide)

/-- C3 (amended): an entry listed in the machine's private folder is
included in the getiso reply if and only if probing the file of that NAME
under the SHARED ISO folder matches the ISO-9660 signature (the code
probes `shared_isos_folder` in both loops), and its descriptor is tagged
with the private folder's path; an entry of the shared folder is included
iff its file under the shared folder matches, tagged with the shared
folder's path. -/
theorem claim3_getiso_membership (folder shared : String) (lsFolder lsShared : List String)
    (classify : String → String) (e : IsoNode) :
    e ∈ iq_getiso folder shared lsFolder lsShared classify ↔
      ((∃ iso ∈ lsFolder, isoMatch (classify (shared ++ "/" ++ iso)) = true ∧
          e = { name := iso, path := folder ++ "/" ++ iso }) ∨
       (∃ iso ∈ lsShared, isoMatch (classify (shared ++ "/" ++ iso)) = true ∧
          e = { name := iso, path := shared ++ "/" ++ iso })) := by
  simp only [iq_getiso, List.mem_append, List.mem_map, List.mem_filter]
  constructor
  · intro h
    rcases h with ⟨iso, ⟨hmem, hmatch⟩, heq⟩ | ⟨iso, ⟨hmem, hmatch⟩, heq⟩
    · exact Or.inl ⟨iso, hmem, hmatch, heq.symm⟩
    · exact Or.inr ⟨iso, hmem, hmatch, heq.symm⟩
  · intro h
    rcases h with ⟨iso, hmem, hmatch, heq⟩ | ⟨iso, hmem, hmatch, heq⟩
    · exact Or.inl ⟨iso, ⟨hmem, hmatch⟩, heq.symm⟩
    · exact Or.inr ⟨iso, ⟨hmem, hmatch⟩, heq.symm⟩

/-- The classifier of the C3 counterexample: only the file "/vm/a.iso"
(in the private folder) is an ISO image; the probe of any other path
fails. -/
def c3Classify : String → String :=
  fun p => if p = "/vm/a.iso" then "ISO 9660 CD-ROM filesystem" else "cannot open"

/-- C3 counterexample: the private folder holds "a.iso", whose file in
the private folder classifies as ISO-9660, yet the reply is empty --
because the code probes the entry's name under the shared folder instead.
The claimed inclusion criterion (classification in the private folder)
is therefore false. -/
theorem claim3_counterexample :
    isoMatch (c3Classify ("/vm" ++ "/" ++ "a.iso")) = true ∧
    iq_getiso "/vm" "/iso/" ["a.iso"] [] c3Classify = [] := by
  decide

/-- C8: after a successful convert, the definition document keeps its
length, order and unrelated content; every device entry other than the
first one whose source file equals the converted path is unchanged, and
that first matching entry (when one exists) is exactly the original entry
with its driver type set to the target format (when it has a driver
element) and its source file set to the computed destination. -/
theorem claim8_retarget (w : World) (convertRet : Int) (path format : String) (defn : VMDef)
    (hdef : w.definition = some defn)
    (hres : (iq_convert w convertRet path format).1 = .result) :
    ∃ defn', (iq_convert w convertRet path format).2.definition = some defn' ∧
      defn'.vrest = defn.vrest ∧
      defn'.devices.length = defn.devices.length ∧
      (∀ i : Nat, i ≠ defn.devices.findIdx (matchesSource path) →
        defn'.devices[i]? = defn.devices[i]?) ∧
      (∀ m : DiskNode, defn.devices[defn.devices.findIdx (matchesSource path)]? = some m →
        defn'.devices[defn.devices.findIdx (matchesSource path)]? =
          some (updateDrive format (convertDest path format) m)) := by
  by_cases h1 : convertDest path format ∈ w.fs
  · simp [iq_convert, h1] at hres
  · by_cases h2 : convertRet = 0
    · by_cases h3 : path ∈ convertDest path format :: w.fs
      · have hdefEq : (iq_convert w convertRet path format).2.definition =
            some { defn with
              devices := (convertRetarget path (convertDest path format) format defn.devices).1 } := by
          simp [iq_convert, h1, h2, h3, hdef, change_presence]
        refine ⟨_, hdefEq, rfl, convertRetarget_length path (convertDest path format) format
            defn.devices, ?_, ?_⟩
        · intro i hi
          exact convertRetarget_frame path (convertDest path format) format defn.devices i hi
        · intro m hm
          exact convertRetarget_hit path (convertDest path format) format defn.devices m hm
      · simp [iq_convert, h1, h2, h3, change_presence] at hres
    · simp [iq_convert, h1, h2] at hres

/-- C6 (amended): after a successful delete with undefine "yes" on a
machine holding a definition document, no FILE-TYPE disk entry of the
resulting document references the deleted path (entries whose type
attribute is not "file" are not scanned by the code and may keep
referencing it), and the document is committed -- with the
definition-changed notification pushed -- if and only if at least one
file-type entry matched the deleted path. -/
theorem claim6_undefine (w : World) (name : String) (defn : VMDef)
    (hdef : w.definition = some defn)
    (hres : (iq_delete w name "yes").1 = .result) :
    ∃ defn', (iq_delete w name "yes").2.definition = some defn' ∧
      (∀ d ∈ defn'.devices, d.typ = "file" →
        d.sourceFile ≠ some (deleteTarget w.folder name)) ∧
      ((iq_delete w name "yes").2.commits =
        if ∃ d ∈ defn.devices, d.typ = "file" ∧
            d.sourceFile = some (deleteTarget w.folder name)
        then w.commits ++ [defn'] else w.commits) ∧
      ((iq_delete w name "yes").2.pushes =
        w.pushes ++
          (if ∃ d ∈ defn.devices, d.typ = "file" ∧
              d.sourceFile = some (deleteTarget w.folder name)
           then [("virtualmachine:definition", "defined"), ("disk", "deleted")]
           else [("disk", "deleted")])) := by
  by_cases hfs : deleteTarget w.folder name ∈ w.fs
  · by_cases hcr : (scanDisks (deleteTarget w.folder name) defn.devices).2.2 = true
    · simp [iq_delete, change_presence, hdef, hfs, hcr] at hres
    · have hcr' : (scanDisks (deleteTarget w.folder name) defn.devices).2.2 = false := by
        simpa using hcr
      have hiff := scanDisks_removed_iff (deleteTarget w.folder name) defn.devices hcr'
      refine ⟨{ defn with
          devices := (scanDisks (deleteTarget w.folder name) defn.devices).1 }, ?_, ?_, ?_, ?_⟩
      · simp [iq_delete, change_presence, hdef, hfs, hcr']
        split <;> rfl
      · intro d hd htyp
        exact scanDisks_no_crash (deleteTarget w.folder name) defn.devices hcr' d hd htyp
      · by_cases hrem : (scanDisks (deleteTarget w.folder name) defn.devices).2.1 = true
        · rw [if_pos (hiff.mp hrem)]
          simp [iq_delete, change_presence, hdef, hfs, hcr', hrem]
        · rw [if_neg (fun hex => hrem (hiff.mpr hex))]
          simp [iq_delete, change_presence, hdef, hfs, hcr', hrem]
      · by_cases hrem : (scanDisks (deleteTarget w.folder name) defn.devices).2.1 = true
        · rw [if_pos (hiff.mp hrem)]
          simp [iq_delete, change_presence, hdef, hfs, hcr', hrem]
        · rw [if_neg (fun hex => hrem (hiff.mpr hex))]
          simp [iq_delete, change_presence, hdef, hfs, hcr', hrem]
  · simp [iq_delete, change_presence, hfs] at hres

/-- The definition document of the C6 counterexample: one disk entry of
type "block" whose source file is the path about to be deleted. -/
def c6Defn : VMDef :=
  { devices := [⟨"block", some ⟨some "/vm/a.img", ""⟩, none, ""⟩], vrest := "doc" }

/-- The world of the C6 counterexample. -/
def c6World : World :=
  { folder := "/vm", qemuBin := "qemu-img", fs := ["/vm/a.img"],
    xmppstatus := "Online", xmppstatusshow := "", definition := some c6Defn,
    commits := [], pushes := [], calls := [] }

/-- C6 counterexample: a delete with undefine "yes" succeeds, yet a disk
entry still references the deleted path afterwards -- the loop only scans
entries with type attribute "file", so the matching "block"-type entry
survives and the claim's "afterwards no disk entry references that path"
is false. -/
theorem claim6_counterexample :
    (iq_delete c6World "a.img" "yes").1 = .result ∧
    (∃ d ∈ ((iq_delete c6World "a.img" "yes").2.definition.getD ⟨[], ""⟩).devices,
      d.sourceFile = some (deleteTarget "/vm" "a.img")) ∧
    (iq_delete c6World "a.img" "yes").2.commits = [] := by
  decide

/-- Definition document for the C6 witness: a matching file-type entry, a
non-matching file-type entry, and a block-type entry. -/
def c6WitDefn : VMDef :=
  { devices := [⟨"file", some ⟨some "/vm/a.img", ""⟩, none, ""⟩,
      ⟨"file", some ⟨some "/vm/b.img", ""⟩, none, ""⟩,
      ⟨"block", some ⟨none, ""⟩, none, ""⟩],
    vrest := "doc" }

/-- The world of the C6 witness. -/
def c6WitWorld : World :=
  { folder := "/vm", qemuBin := "qemu-img", fs := ["/vm/a.img"],
    xmppstatus := "Online", xmppstatusshow := "", definition := some c6WitDefn,
    commits := [], pushes := [], calls := [] }

/-- C6 witness: the amended theorem applied to a concrete successful
undefine-delete of "/vm/a.img". -/
theorem claim6_witness :
    ∃ defn', (iq_delete c6WitWorld "a.img" "yes").2.definition = some defn' ∧
      (∀ d ∈ defn'.devices, d.typ = "file" →
        d.sourceFile ≠ some (deleteTarget c6WitWorld.folder "a.img")) ∧
      ((iq_delete c6WitWorld "a.img" "yes").2.commits =
        if ∃ d ∈ c6WitDefn.devices, d.typ = "file" ∧
            d.sourceFile = some (deleteTarget c6WitWorld.folder "a.img")
        then c6WitWorld.commits ++ [defn'] else c6WitWorld.commits) ∧
      ((iq_delete c6WitWorld "a.img" "yes").2.pushes =
        c6WitWorld.pushes ++
          (if ∃ d ∈ c6WitDefn.devices, d.typ = "file" ∧
              d.sourceFile = some (deleteTarget c6WitWorld.folder "a.img")
           then [("virtualmachine:definition", "defined"), ("disk", "deleted")]
           else [("disk", "deleted")])) :=
  claim6_undefine c6WitWorld "a.img" c6WitDefn rfl (by decide)

/-- Definition document for the C8 witness: two file-type entries both
referencing the source path, the first with a driver element. -/
def c8Defn : VMDef :=
  { devices := [⟨"file", some ⟨some "/vm/a.img", "s1"⟩, some ⟨some "raw", "d1"⟩, "n1"⟩,
      ⟨"file", some ⟨some "/vm/a.img", "s2"⟩, none, "n2"⟩],
    vrest := "doc" }

/-- The world of the C8 witness. -/
def c8World : World :=
  { folder := "/vm", qemuBin := "qemu-img", fs := ["/vm/a.img"],
    xmppstatus := "Online", xmppstatusshow := "", definition := some c8Defn,
    commits := [], pushes := [], calls := [] }

/-- C8 witness: the frame theorem applied to a concrete successful
convert of "/vm/a.img" to qcow2; the second entry referencing the same
path is untouched. -/
theorem claim8_witness :
    ∃ defn', (iq_convert c8World 0 "/vm/a.img" "qcow2").2.definition = some defn' ∧
      defn'.vrest = c8Defn.vrest ∧
      defn'.devices.length = c8Defn.devices.length ∧
      (∀ i : Nat, i ≠ c8Defn.devices.findIdx (matchesSource "/vm/a.img") →
        defn'.devices[i]? = c8Defn.devices[i]?) ∧
      (∀ m : DiskNode,
        c8Defn.devices[c8Defn.devices.findIdx (matchesSource "/vm/a.img")]? = some m →
        defn'.devices[c8Defn.devices.findIdx (matchesSource "/vm/a.img")]? =
          some (updateDrive "qcow2" (convertDest "/vm/a.img" "qcow2") m)) :=
  claim8_retarget c8World 0 "/vm/a.img" "qcow2" c8Defn rfl (by decide)

/-- The world of the C5 witness: all three destination paths already
exist. -/
def c5World : World :=
  { folder := "/vm", qemuBin := "qemu-img", fs := ["/vm/n.qcow2", "a.qcow2", "/vm/b.img"],
    xmppstatus := "Online", xmppstatusshow := "", definition := none,
    commits := [], pushes := [], calls := [] }

/-- C5 witness: the no-overwrite theorem at concrete requests whose
destinations "/vm/n.qcow2", "a.qcow2" and "/vm/b.img" already exist. -/
theorem claim5_witness :
    iq_create c5World 0 false "n" "5" "G" "qcow2" "" = (.error (-3001), c5World) ∧
    iq_convert c5World 0 "a.img" "qcow2" = (.error (-3005), c5World) ∧
    iq_rename c5World "a.img" "b" = (.error (-3006), c5World) :=
  ⟨(claim5_no_overwrite c5World 0 0 false "n" "5" "G" "qcow2" "" "a.img" "qcow2"
      "a.img" "b").1 (by decide),
   (claim5_no_overwrite c5World 0 0 false "n" "5" "G" "qcow2" "" "a.img" "qcow2"
      "a.img" "b").2.1 (by decide),
   (claim5_no_overwrite c5World 0 0 false "n" "5" "G" "qcow2" "" "a.img" "qcow2"
      "a.img" "b").2.2 (by decide)⟩

/-- The world of the C7 witness. -/
def c7World : World :=
  { folder := "/vm", qemuBin := "qemu-img", fs := [],
    xmppstatus := "Online", xmppstatusshow := "", definition := none,
    commits := [], pushes := [], calls := [] }

/-- C7 witness: the size-guard theorem at a concrete oversized request
(unit "M", size 1000000000). -/
theorem claim7_witness :
    iq_create c7World 0 false "n" "1000000000" "M" "qcow2" "" = (.error (-3001), c7World) :=
  claim7_size_guard c7World 0 false "n" "1000000000" "M" "qcow2" "" 1000000000
    (Or.inl ⟨rfl, by decide, by decide⟩)

/-- C10 witness: the dispatcher theorem at the concrete unknown action
"destroy" on a non-migrating machine. -/
theorem claim10_witness :
    process_iq false (-99) "destroy" (fun _ => Reply.result) = (none, []) :=
  claim10_unknown_action_dropped "destroy" (-99) (fun _ => Reply.result) (by decide)

end Storage
